import Mathlib

/-!
Shallow embedding of the TGAuth authentication core (TypeScript) in Lean 4.

The TypeScript classes hold their mutable state in `Map<string, _>` objects;
here each class's state is an explicit association list on string keys and
every method is a pure function from (inputs, state) to (result, state).
`Date.now()` / `Math.random()` / `crypto.randomBytes` are passed in as
explicit parameters (`now : Int`, `r : ℚ`, `bytes : List Nat`), and the
opaque cryptographic primitives (SHA-256, HMAC-SHA-256) are abstract
function parameters.
-/

namespace TGAuth

/-- Association map on string keys modelling a JS `Map<string, α>`:
lookup returns the first matching entry, `setMap` replaces the entry in
place (like `Map.set`). -/
def lookupMap {α : Type} : List (String × α) → String → Option α
  | [], _ => none
  | (k, v) :: rest, key => if k = key then some v else lookupMap rest key

/-- `Map.set`: replace the entry for `key` in place, or append a fresh one. -/
def setMap {α : Type} : List (String × α) → String → α → List (String × α)
  | [], key, v => [(key, v)]
  | (k, w) :: rest, key, v =>
      if k = key then (key, v) :: rest else (k, w) :: setMap rest key v

/-- `Map.delete`: drop the entry for `key`.  A JS `Map` holds at most one
entry per key, so dropping every matching pair is exact. -/
def deleteMap {α : Type} (m : List (String × α)) (key : String) : List (String × α) :=
  m.filter (fun kv => kv.1 != key)

theorem lookupMap_setMap_self {α : Type} (m : List (String × α)) (k : String) (v : α) :
    lookupMap (setMap m k v) k = some v := by
  induction m with
  | nil => simp [setMap, lookupMap]
  | cons kv rest ih =>
      obtain ⟨k', v'⟩ := kv
      by_cases h : k' = k
      · simp [setMap, h, lookupMap]
      · simp [setMap, h, lookupMap, ih]

theorem lookupMap_setMap_ne {α : Type} (m : List (String × α)) {k k' : String} (v : α)
    (h : k' ≠ k) : lookupMap (setMap m k v) k' = lookupMap m k' := by
  have hk : k ≠ k' := Ne.symm h
  induction m with
  | nil => simp [setMap, lookupMap, hk]
  | cons kv rest ih =>
      obtain ⟨k0, v0⟩ := kv
      by_cases h0 : k0 = k
      · subst h0
        simp [setMap, lookupMap, hk]
      · simp only [setMap, h0, if_false, lookupMap]
        by_cases h1 : k0 = k'
        · simp [h1]
        · simp [h1, ih]

theorem deleteMap_cons {α : Type} (k0 : String) (v0 : α) (rest : List (String × α))
    (k : String) :
    deleteMap ((k0, v0) :: rest) k =
      if k0 = k then deleteMap rest k else (k0, v0) :: deleteMap rest k := by
  simp only [deleteMap, List.filter_cons]
  by_cases h0 : k0 = k <;> simp [h0]

theorem lookupMap_deleteMap_self {α : Type} (m : List (String × α)) (k : String) :
    lookupMap (deleteMap m k) k = none := by
  induction m with
  | nil => simp [deleteMap, lookupMap]
  | cons kv rest ih =>
      obtain ⟨k0, v0⟩ := kv
      rw [deleteMap_cons]
      by_cases h0 : k0 = k
      · rw [if_pos h0]
        exact ih
      · rw [if_neg h0, lookupMap, if_neg h0]
        exact ih

theorem lookupMap_deleteMap_ne {α : Type} (m : List (String × α)) {k k' : String}
    (h : k' ≠ k) : lookupMap (deleteMap m k) k' = lookupMap m k' := by
  induction m with
  | nil => simp [deleteMap]
  | cons kv rest ih =>
      obtain ⟨k0, v0⟩ := kv
      rw [deleteMap_cons]
      by_cases h0 : k0 = k
      · have hne : k0 ≠ k' := fun hh => h (hh.symm.trans h0)
        rw [if_pos h0, ih, lookupMap, if_neg hne]
      · rw [if_neg h0]
        by_cases h1 : k0 = k'
        · simp [lookupMap, h1]
        · simp [lookupMap, h1, ih]

/-- Identity record delivered by Telegram (`AuthResult` in `src/Src/types`).
The core treats it as opaque data: it is stored and passed through unchanged. -/
structure AuthResult where
  id : Int
  first_name : String
  deriving DecidableEq, Repr

/-! DeeplinkAuth (`src/Src/Auth/DeeplinkAuth.ts`): single-use deeplink tokens. -/

/-- `DeeplinkSession` record of `DeeplinkAuth`. -/
structure DeeplinkSession where
  token : String
  createdAt : Int
  used : Bool
  userData : Option AuthResult
  deriving DecidableEq, Repr

/-- State of a `DeeplinkAuth` instance: its `sessions` map. -/
abbrev DeeplinkSessions := List (String × DeeplinkSession)

namespace DeeplinkAuth

/-- `generateDeeplink`: register a fresh unused session under the random
token (the returned URL string is not modelled; the registered token is). -/
def generateDeeplink (now : Int) (token : String) (st : DeeplinkSessions) :
    DeeplinkSessions :=
  setMap st token ⟨token, now, false, none⟩

/-- `handleAuth(token, userData)`: fail on a missing or used session,
otherwise mark it used, capture the identity and succeed. -/
def handleAuth (token : String) (userData : AuthResult) (st : DeeplinkSessions) :
    Bool × DeeplinkSessions :=
  match lookupMap st token with
  | none => (false, st)
  | some session =>
      if session.used then (false, st)
      else
        (true, setMap st token { session with used := true, userData := some userData })

/-- `invalidateDeeplink(token)`: administratively mark a session used. -/
def invalidateDeeplink (token : String) (st : DeeplinkSessions) : DeeplinkSessions :=
  match lookupMap st token with
  | none => st
  | some session => setMap st token { session with used := true }

end DeeplinkAuth

/-! CodeAuth (`src/Src/Auth/CodeAuth.ts`): single-use numeric codes. -/

/-- `CodeSession` record of `CodeAuth`. -/
structure CodeSession where
  code : String
  createdAt : Int
  used : Bool
  userData : Option AuthResult
  deriving DecidableEq, Repr

/-- State of a `CodeAuth` instance: its `sessions` map keyed by the code. -/
abbrev CodeSessions := List (String × CodeSession)

namespace CodeAuth

/-- `generateCode`: `Math.floor(100000 + Math.random() * 900000)`, registered
as an unused session keyed by its own decimal string. -/
def generateCode (now : Int) (r : ℚ) (st : CodeSessions) : String × CodeSessions :=
  let code := toString (Int.floor ((100000 : ℚ) + r * 900000))
  (code, setMap st code ⟨code, now, false, none⟩)

/-- `handleAuth(code, userData)`: fail on a missing or used session,
otherwise mark it used, capture the identity and succeed. -/
def handleAuth (code : String) (userData : AuthResult) (st : CodeSessions) :
    Bool × CodeSessions :=
  match lookupMap st code with
  | none => (false, st)
  | some session =>
      if session.used then (false, st)
      else
        (true, setMap st code { session with used := true, userData := some userData })

/-- `invalidateCode(code)`: administratively mark a session used. -/
def invalidateCode (code : String) (st : CodeSessions) : CodeSessions :=
  match lookupMap st code with
  | none => st
  | some session => setMap st code { session with used := true }

end CodeAuth

/-! Operation sequences over the two artifact stores, for the temporal
single-use property. -/

/-- One externally observable mutation of a `DeeplinkAuth` instance. -/
inductive DeeplinkOp where
  | gen (now : Int) (token : String)
  | handle (token : String) (user : AuthResult)
  | invalid (token : String)
  deriving DecidableEq

/-- Does this operation register (or re-register) the token `t`? -/
def DeeplinkOp.generates : DeeplinkOp → String → Prop
  | .gen _ token, t => token = t
  | .handle _ _, _ => False
  | .invalid _, _ => False

instance (op : DeeplinkOp) (t : String) : Decidable (op.generates t) := by
  cases op <;> simp [DeeplinkOp.generates] <;> infer_instance

namespace DeeplinkAuth

/-- Effect of one operation on the sessions map. -/
def applyOp : DeeplinkOp → DeeplinkSessions → DeeplinkSessions
  | .gen now token, st => generateDeeplink now token st
  | .handle token u, st => (handleAuth token u st).2
  | .invalid token, st => invalidateDeeplink token st

/-- Run a list of operations left to right. -/
def run (ops : List DeeplinkOp) (st : DeeplinkSessions) : DeeplinkSessions :=
  ops.foldl (fun s op => applyOp op s) st

/-- A token is dead when it is unregistered or already used; `handleAuth`
then fails and leaves the state untouched. -/
def Dead (t : String) (st : DeeplinkSessions) : Prop :=
  lookupMap st t = none ∨ ∃ s, lookupMap st t = some s ∧ s.used = true

theorem handleAuth_of_dead {t : String} {st : DeeplinkSessions} (h : Dead t st)
    (u : AuthResult) : handleAuth t u st = (false, st) := by
  rcases h with h | ⟨s, hs, hu⟩
  · simp [handleAuth, h]
  · simp [handleAuth, hs, hu]

theorem handleAuth_lookup_other {t t' : String} (hne : t ≠ t') (u : AuthResult)
    (st : DeeplinkSessions) :
    lookupMap (handleAuth t' u st).2 t = lookupMap st t := by
  unfold handleAuth
  cases hl : lookupMap st t' with
  | none => rfl
  | some s =>
      by_cases hu : s.used
      · simp [hu]
      · simp [hu, lookupMap_setMap_ne _ _ hne]

theorem dead_applyOp {t : String} {st : DeeplinkSessions} (op : DeeplinkOp)
    (h : Dead t st) (hop : ¬ op.generates t) : Dead t (applyOp op st) := by
  cases op with
  | gen now token =>
      have hne : t ≠ token := fun hh => hop (by simp [DeeplinkOp.generates, hh])
      simp only [applyOp, generateDeeplink]
      rcases h with h | ⟨s, hs, hu⟩
      · exact Or.inl (by rw [lookupMap_setMap_ne _ _ hne]; exact h)
      · exact Or.inr ⟨s, by rw [lookupMap_setMap_ne _ _ hne]; exact hs, hu⟩
  | handle token u =>
      simp only [applyOp]
      by_cases he : token = t
      · subst he
        rw [handleAuth_of_dead h u]
        exact h
      · have hne : t ≠ token := fun hh => he hh.symm
        rcases h with h | ⟨s, hs, hu⟩
        · exact Or.inl (by rw [handleAuth_lookup_other hne]; exact h)
        · exact Or.inr ⟨s, by rw [handleAuth_lookup_other hne]; exact hs, hu⟩
  | invalid token =>
      simp only [applyOp, invalidateDeeplink]
      by_cases he : token = t
      · subst he
        cases hl : lookupMap st token with
        | none => exact h
        | some s =>
            exact Or.inr ⟨{ s with used := true }, lookupMap_setMap_self _ _ _, rfl⟩
      · have hne : t ≠ token := fun hh => he hh.symm
        cases hl : lookupMap st token with
        | none => exact h
        | some s =>
            rcases h with h | ⟨s', hs, hu⟩
            · exact Or.inl (by rw [lookupMap_setMap_ne _ _ hne]; exact h)
            · exact Or.inr ⟨s', by rw [lookupMap_setMap_ne _ _ hne]; exact hs, hu⟩

theorem dead_run {t : String} (ops : List DeeplinkOp) {st : DeeplinkSessions}
    (h : Dead t st) (hops : ∀ op ∈ ops, ¬ op.generates t) : Dead t (run ops st) := by
  induction ops generalizing st with
  | nil => exact h
  | cons op rest ih =>
      exact ih (dead_applyOp op h (hops op (List.mem_cons_self op rest)))
        (fun o ho => hops o (List.mem_cons_of_mem op ho))

theorem handleAuth_generateDeeplink (now : Int) (t : String) (u : AuthResult)
    (st : DeeplinkSessions) :
    handleAuth t u (generateDeeplink now t st) =
      (true, setMap (generateDeeplink now t st) t ⟨t, now, true, some u⟩) := by
  unfold handleAuth generateDeeplink
  rw [lookupMap_setMap_self]
  rfl

end DeeplinkAuth

/-- One externally observable mutation of a `CodeAuth` instance; `gen`
carries the `Math.random()` draw that determines the generated code. -/
inductive CodeOp where
  | gen (now : Int) (r : ℚ)
  | handle (code : String) (user : AuthResult)
  | invalid (code : String)

/-- The decimal string `Math.floor(100000 + r * 900000).toString()` that a
`gen` draw registers. -/
def CodeOp.genValue (r : ℚ) : String :=
  toString (Int.floor ((100000 : ℚ) + r * 900000))

/-- Does this operation register (or re-register) the code `c`? -/
def CodeOp.generates : CodeOp → String → Prop
  | .gen _ r, c => CodeOp.genValue r = c
  | .handle _ _, _ => False
  | .invalid _, _ => False

namespace CodeAuth

/-- Effect of one operation on the sessions map. -/
def applyOp : CodeOp → CodeSessions → CodeSessions
  | .gen now r, st => (generateCode now r st).2
  | .handle code u, st => (handleAuth code u st).2
  | .invalid code, st => invalidateCode code st

/-- Run a list of operations left to right. -/
def run (ops : List CodeOp) (st : CodeSessions) : CodeSessions :=
  ops.foldl (fun s op => applyOp op s) st

/-- A code is dead when it is unregistered or already used. -/
def Dead (c : String) (st : CodeSessions) : Prop :=
  lookupMap st c = none ∨ ∃ s, lookupMap st c = some s ∧ s.used = true

theorem code_handleAuth_of_dead {c : String} {st : CodeSessions} (h : Dead c st)
    (u : AuthResult) : handleAuth c u st = (false, st) := by
  rcases h with h | ⟨s, hs, hu⟩
  · simp [handleAuth, h]
  · simp [handleAuth, hs, hu]

theorem code_handleAuth_lookup_other {c c' : String} (hne : c ≠ c') (u : AuthResult)
    (st : CodeSessions) :
    lookupMap (handleAuth c' u st).2 c = lookupMap st c := by
  unfold handleAuth
  cases hl : lookupMap st c' with
  | none => rfl
  | some s =>
      by_cases hu : s.used
      · simp [hu]
      · simp [hu, lookupMap_setMap_ne _ _ hne]

theorem code_dead_applyOp {c : String} {st : CodeSessions} (op : CodeOp)
    (h : Dead c st) (hop : ¬ op.generates c) : Dead c (applyOp op st) := by
  cases op with
  | gen now r =>
      have hne : c ≠ CodeOp.genValue r := fun hh => hop (by simp [CodeOp.generates, hh])
      simp only [applyOp, generateCode, CodeOp.genValue] at hne ⊢
      rcases h with h | ⟨s, hs, hu⟩
      · exact Or.inl (by rw [lookupMap_setMap_ne _ _ hne]; exact h)
      · exact Or.inr ⟨s, by rw [lookupMap_setMap_ne _ _ hne]; exact hs, hu⟩
  | handle code u =>
      simp only [applyOp]
      by_cases he : code = c
      · subst he
        rw [code_handleAuth_of_dead h u]
        exact h
      · have hne : c ≠ code := fun hh => he hh.symm
        rcases h with h | ⟨s, hs, hu⟩
        · exact Or.inl (by rw [code_handleAuth_lookup_other hne]; exact h)
        · exact Or.inr ⟨s, by rw [code_handleAuth_lookup_other hne]; exact hs, hu⟩
  | invalid code =>
      simp only [applyOp, invalidateCode]
      by_cases he : code = c
      · subst he
        cases hl : lookupMap st code with
        | none => exact h
        | some s =>
            exact Or.inr ⟨{ s with used := true }, lookupMap_setMap_self _ _ _, rfl⟩
      · have hne : c ≠ code := fun hh => he hh.symm
        cases hl : lookupMap st code with
        | none => exact h
        | some s =>
            rcases h with h | ⟨s', hs, hu⟩
            · exact Or.inl (by rw [lookupMap_setMap_ne _ _ hne]; exact h)
            · exact Or.inr ⟨s', by rw [lookupMap_setMap_ne _ _ hne]; exact hs, hu⟩

theorem code_dead_run {c : String} (ops : List CodeOp) {st : CodeSessions}
    (h : Dead c st) (hops : ∀ op ∈ ops, ¬ op.generates c) : Dead c (run ops st) := by
  induction ops generalizing st with
  | nil => exact h
  | cons op rest ih =>
      exact ih (code_dead_applyOp op h (hops op (List.mem_cons_self op rest)))
        (fun o ho => hops o (List.mem_cons_of_mem op ho))

theorem handleAuth_generateCode (now : Int) (r : ℚ) (u : AuthResult)
    (st : CodeSessions) :
    handleAuth (generateCode now r st).1 u (generateCode now r st).2 =
      (true, setMap (generateCode now r st).2 (CodeOp.genValue r)
        ⟨CodeOp.genValue r, now, true, some u⟩) := by
  simp only [generateCode, CodeOp.genValue, handleAuth]
  rw [lookupMap_setMap_self]
  rfl

end CodeAuth

/-- C1: for both artifact stores (deeplink tokens and numeric codes), once a
value has been generated, the first `handleAuth` on it returns `true`, marks
the artifact used and stores the presented identity; every later `handleAuth`
on the same value — with any identity, after any further operations that do
not re-generate that exact value — returns `false` and leaves the state
unchanged; and `handleAuth` on a value never generated returns `false`. -/
theorem artifact_single_use
    (stD : DeeplinkSessions) (stC : CodeSessions)
    (nowD nowC : Int) (t : String) (r : ℚ) (u1 u2 u3 v1 v2 v3 : AuthResult) :
    (DeeplinkAuth.handleAuth t u1 (DeeplinkAuth.generateDeeplink nowD t stD) =
      (true, setMap (DeeplinkAuth.generateDeeplink nowD t stD) t ⟨t, nowD, true, some u1⟩))
    ∧ (∀ ops : List DeeplinkOp, (∀ op ∈ ops, ¬ op.generates t) →
        DeeplinkAuth.handleAuth t u2
            (DeeplinkAuth.run ops
              (DeeplinkAuth.handleAuth t u1
                (DeeplinkAuth.generateDeeplink nowD t stD)).2) =
          (false, DeeplinkAuth.run ops
              (DeeplinkAuth.handleAuth t u1
                (DeeplinkAuth.generateDeeplink nowD t stD)).2))
    ∧ (∀ ops : List DeeplinkOp, (∀ op ∈ ops, ¬ op.generates t) →
        DeeplinkAuth.handleAuth t u3 (DeeplinkAuth.run ops []) =
          (false, DeeplinkAuth.run ops []))
    ∧ (CodeAuth.handleAuth (CodeAuth.generateCode nowC r stC).1 v1
          (CodeAuth.generateCode nowC r stC).2 =
        (true, setMap (CodeAuth.generateCode nowC r stC).2 (CodeOp.genValue r)
          ⟨CodeOp.genValue r, nowC, true, some v1⟩))
    ∧ (∀ ops : List CodeOp, (∀ op ∈ ops, ¬ op.generates (CodeOp.genValue r)) →
        CodeAuth.handleAuth (CodeOp.genValue r) v2
            (CodeAuth.run ops
              (CodeAuth.handleAuth (CodeOp.genValue r) v1
                (CodeAuth.generateCode nowC r stC).2).2) =
          (false, CodeAuth.run ops
              (CodeAuth.handleAuth (CodeOp.genValue r) v1
                (CodeAuth.generateCode nowC r stC).2).2))
    ∧ (∀ ops : List CodeOp, (∀ op ∈ ops, ¬ op.generates t) →
        CodeAuth.handleAuth t v3 (CodeAuth.run ops []) =
          (false, CodeAuth.run ops [])) := by
  refine ⟨DeeplinkAuth.handleAuth_generateDeeplink nowD t u1 stD, ?_, ?_,
    CodeAuth.handleAuth_generateCode nowC r v1 stC, ?_, ?_⟩
  · intro ops hops
    have hdead : DeeplinkAuth.Dead t
        (DeeplinkAuth.handleAuth t u1 (DeeplinkAuth.generateDeeplink nowD t stD)).2 := by
      rw [DeeplinkAuth.handleAuth_generateDeeplink nowD t u1 stD]
      exact Or.inr ⟨_, lookupMap_setMap_self _ _ _, rfl⟩
    exact DeeplinkAuth.handleAuth_of_dead (DeeplinkAuth.dead_run ops hdead hops) u2
  · intro ops hops
    have hdead : DeeplinkAuth.Dead t ([] : DeeplinkSessions) := Or.inl rfl
    exact DeeplinkAuth.handleAuth_of_dead (DeeplinkAuth.dead_run ops hdead hops) u3
  · intro ops hops
    have hdead : CodeAuth.Dead (CodeOp.genValue r)
        (CodeAuth.handleAuth (CodeOp.genValue r) v1
          (CodeAuth.generateCode nowC r stC).2).2 := by
      have h1 := CodeAuth.handleAuth_generateCode nowC r v1 stC
      have h2 : (CodeAuth.generateCode nowC r stC).1 = CodeOp.genValue r := rfl
      rw [h2] at h1
      rw [h1]
      exact Or.inr ⟨_, lookupMap_setMap_self _ _ _, rfl⟩
    exact CodeAuth.code_handleAuth_of_dead (CodeAuth.code_dead_run ops hdead hops) v2
  · intro ops hops
    have hdead : CodeAuth.Dead t ([] : CodeSessions) := Or.inl rfl
    exact CodeAuth.code_handleAuth_of_dead (CodeAuth.code_dead_run ops hdead hops) v3

/-- Witness for C1 at concrete inputs: a generated deeplink token redeems
once, then fails after an unrelated invalidation; a never-generated code
fails. -/
theorem artifact_single_use_w :
    (DeeplinkAuth.handleAuth "tok" ⟨1, "A"⟩
        (DeeplinkAuth.run [DeeplinkOp.invalid "other"]
          (DeeplinkAuth.handleAuth "tok" ⟨2, "B"⟩
            (DeeplinkAuth.generateDeeplink 0 "tok" [])).2) =
      (false, DeeplinkAuth.run [DeeplinkOp.invalid "other"]
          (DeeplinkAuth.handleAuth "tok" ⟨2, "B"⟩
            (DeeplinkAuth.generateDeeplink 0 "tok" [])).2))
    ∧ (CodeAuth.handleAuth "999999" ⟨3, "C"⟩ (CodeAuth.run [] []) =
        (false, CodeAuth.run [] [])) := by
  have h := artifact_single_use [] [] 0 0 "tok" 0 ⟨2, "B"⟩ ⟨1, "A"⟩ ⟨1, "A"⟩
    ⟨2, "B"⟩ ⟨1, "A"⟩ ⟨3, "C"⟩
  refine ⟨h.2.1 [DeeplinkOp.invalid "other"] ?_, ?_⟩
  · intro op hop
    have : op = DeeplinkOp.invalid "other" := by simpa using hop
    subst this
    simp [DeeplinkOp.generates]
  · have h' := artifact_single_use [] [] 0 0 "999999" 0 ⟨2, "B"⟩ ⟨1, "A"⟩ ⟨1, "A"⟩
      ⟨2, "B"⟩ ⟨1, "A"⟩ ⟨3, "C"⟩
    exact h'.2.2.2.2.2 [] (by simp)

/-! TelegramBotSettings (`src/Src/core/TelegramBotSettings.ts`) and the
backward-compatible credential resolution shared by the constructors of
`DeeplinkAuth`, `CodeAuth` and `TwoFAAuth`.  Message templates are not used
by any embedded operation and are omitted. -/

/-- Resolved bot settings: token plus optional username. -/
structure TelegramBotSettings where
  botToken : String
  botUsername : Option String
  deriving DecidableEq, Repr

/-- Credential fields of `AuthTransportOptions` as they exist at runtime. -/
structure AuthTransportOptions where
  botSettings : Option TelegramBotSettings
  botToken : Option String
  botUsername : Option String
  deriving DecidableEq, Repr

/-- The constructor branching of `DeeplinkAuth` / `CodeAuth` / `TwoFAAuth`:
`if (options.botSettings) … else if (options.botToken) … else throw`.  A JS
truthiness test on a string treats the empty string as absent. -/
def resolveBotSettings (o : AuthTransportOptions) : Except String TelegramBotSettings :=
  match o.botSettings with
  | some bs => Except.ok bs
  | none =>
      match o.botToken with
      | some tok =>
          if tok = "" then Except.error "Необходимо указать botSettings или botToken"
          else Except.ok ⟨tok, o.botUsername⟩
      | none => Except.error "Необходимо указать botSettings или botToken"

/-- `DeeplinkAuth`'s constructor: resolve credentials or throw; the sessions
map starts empty. -/
def mkDeeplinkAuth (o : AuthTransportOptions) :
    Except String (TelegramBotSettings × DeeplinkSessions) :=
  (resolveBotSettings o).map (fun bs => (bs, []))

/-- `CodeAuth`'s constructor: resolve credentials or throw; the sessions map
starts empty. -/
def mkCodeAuth (o : AuthTransportOptions) :
    Except String (TelegramBotSettings × CodeSessions) :=
  (resolveBotSettings o).map (fun bs => (bs, []))

/-- JS `x || d` on an optional numeric option: both `undefined` and `0` fall
back to the default. -/
def orDefaultNat (o : Option Nat) (d : Nat) : Nat :=
  match o with
  | none => d
  | some n => if n = 0 then d else n

/-- JS `x || d` on an optional integer option. -/
def orDefaultInt (o : Option Int) (d : Int) : Int :=
  match o with
  | none => d
  | some n => if n = 0 then d else n

/-! TwoFAAuth (`src/Src/Auth/TwoFAAuth.ts`): expiring, attempt-limited
two-factor challenges keyed by the stringified user id. -/

/-- `TwoFASession` record. -/
structure TwoFASession where
  userId : String
  code : String
  createdAt : Int
  expiresAt : Int
  used : Bool
  verified : Bool
  userData : Option AuthResult
  deriving DecidableEq, Repr

/-- Resolved numeric options of `TwoFAAuth` (after constructor defaulting). -/
structure TwoFAOptions where
  codeLifetime : Int
  codeLength : Nat
  maxAttempts : Nat
  deriving DecidableEq, Repr

/-- Raw options reaching the `TwoFAAuth` constructor. -/
structure TwoFAOptionsIn where
  base : AuthTransportOptions
  codeLifetime : Option Int
  codeLength : Option Nat
  maxAttempts : Option Nat
  deriving DecidableEq, Repr

/-- `TwoFAAuth`'s constructor: resolve credentials or throw, then default
`codeLifetime`/`codeLength`/`maxAttempts` with `||`. -/
def mkTwoFAAuth (o : TwoFAOptionsIn) :
    Except String (TelegramBotSettings × TwoFAOptions) :=
  (resolveBotSettings o.base).map
    (fun bs => (bs, ⟨orDefaultInt o.codeLifetime (1000 * 60 * 5),
                     orDefaultNat o.codeLength 6,
                     orDefaultNat o.maxAttempts 3⟩))

/-- State of a `TwoFAAuth` instance: the `sessions` and `attempts` maps. -/
structure TwoFAState where
  sessions : List (String × TwoFASession)
  attempts : List (String × Nat)
  deriving DecidableEq, Repr

namespace TwoFAAuth

/-- Numeric value drawn by `generateCode` for lengths ≤ 8:
`Math.floor(min + r * (max - min + 1))` with `min = 10^(length-1)`,
`max = 10^length - 1` and `r` the `Math.random()` draw. -/
def generateCodeNum (r : ℚ) (length : Nat) : Int :=
  Int.floor ((10 : ℚ) ^ (length - 1) +
    r * (((10 : ℚ) ^ length - 1) - (10 : ℚ) ^ (length - 1) + 1))

/-- Two lowercase hex digits of one byte of `randomBytes` output. -/
def byteHex (b : Nat) : List Char :=
  [Nat.digitChar (b / 16 % 16), Nat.digitChar (b % 16)]

/-- `generateCode(length)`: decimal draw for lengths ≤ 8, otherwise a prefix
of the hex expansion of `randomBytes(ceil(length/2))`. -/
def generateCode (r : ℚ) (bytes : List Nat) (length : Nat) : String :=
  if length ≤ 8 then toString (generateCodeNum r length)
  else String.mk (((bytes.map byteHex).flatten).take length)

/-- `start2FA`: overwrite any existing challenge for the user with a fresh
one and reset the attempt counter to 0; returns the generated code. -/
def start2FA (opts : TwoFAOptions) (now : Int) (userId : String) (r : ℚ)
    (bytes : List Nat) (userData : Option AuthResult) (st : TwoFAState) :
    String × TwoFAState :=
  let code := generateCode r bytes opts.codeLength
  (code,
    ⟨setMap st.sessions userId
        ⟨userId, code, now, now + opts.codeLifetime, false, false, userData⟩,
      setMap st.attempts userId 0⟩)

/-- `verify2FA`: guards in source order (session exists, not expired, not
used, attempts below the cap), then increments the attempt counter and
compares the code; on a match the session becomes used and verified. -/
def verify2FA (opts : TwoFAOptions) (now : Int) (userId code : String)
    (st : TwoFAState) : Bool × TwoFAState :=
  match lookupMap st.sessions userId with
  | none => (false, st)
  | some session =>
      if now > session.expiresAt then (false, st)
      else if session.used then (false, st)
      else
        let attempts := (lookupMap st.attempts userId).getD 0
        if opts.maxAttempts ≤ attempts then (false, st)
        else
          let st1 : TwoFAState := ⟨st.sessions, setMap st.attempts userId (attempts + 1)⟩
          if session.code ≠ code then (false, st1)
          else
            (true, ⟨setMap st1.sessions userId
              { session with used := true, verified := true }, st1.attempts⟩)

/-- `isVerified`: pure read of the `verified` flag. -/
def isVerified (userId : String) (st : TwoFAState) : Bool :=
  match lookupMap st.sessions userId with
  | none => false
  | some session => session.verified

/-- `reset2FA`: delete the challenge and its attempt counter. -/
def reset2FA (userId : String) (st : TwoFAState) : TwoFAState :=
  ⟨deleteMap st.sessions userId, deleteMap st.attempts userId⟩

end TwoFAAuth

/-- One operation on a `TwoFAAuth` instance; `start` carries the randomness
that determines the generated code, `queryVerified` is the pure
`isVerified` read. -/
inductive TwoFAOp where
  | start (now : Int) (userId : String) (r : ℚ) (bytes : List Nat)
      (userData : Option AuthResult)
  | verify (now : Int) (userId code : String)
  | reset (userId : String)
  | queryVerified (userId : String)

/-- Does this operation call `start2FA` for subject `u`? -/
def TwoFAOp.startsFor : TwoFAOp → String → Prop
  | .start _ uid _ _ _, u => uid = u
  | .verify _ _ _, _ => False
  | .reset _, _ => False
  | .queryVerified _, _ => False

namespace TwoFAAuth

/-- Effect of one operation on the state. -/
def applyOp (opts : TwoFAOptions) : TwoFAOp → TwoFAState → TwoFAState
  | .start now uid r bytes ud, st => (start2FA opts now uid r bytes ud st).2
  | .verify now uid code, st => (verify2FA opts now uid code st).2
  | .reset uid, st => reset2FA uid st
  | .queryVerified _, st => st

/-- Run a list of operations left to right. -/
def run (opts : TwoFAOptions) (ops : List TwoFAOp) (st : TwoFAState) : TwoFAState :=
  ops.foldl (fun s op => applyOp opts op s) st

/-- Current attempt count for a subject (`attempts.get(key) || 0`). -/
def attemptsOf (st : TwoFAState) (uid : String) : Nat :=
  (lookupMap st.attempts uid).getD 0

/-- A subject is blocked when it has no challenge or its attempt counter has
reached the cap; `verify2FA` then fails without changing the state. -/
def Blocked (opts : TwoFAOptions) (uid : String) (st : TwoFAState) : Prop :=
  lookupMap st.sessions uid = none ∨ opts.maxAttempts ≤ attemptsOf st uid

theorem verify2FA_of_blocked {opts : TwoFAOptions} {uid : String} {st : TwoFAState}
    (h : Blocked opts uid st) (now : Int) (code : String) :
    verify2FA opts now uid code st = (false, st) := by
  rcases h with h | h
  · simp [verify2FA, h]
  · unfold verify2FA
    cases hl : lookupMap st.sessions uid with
    | none => rfl
    | some s =>
        by_cases he : now > s.expiresAt
        · simp [he]
        · by_cases hu : s.used
          · simp [he, hu]
          · simp [he, hu, attemptsOf] at h ⊢
            simp [h]

theorem verify2FA_lookup_other {opts : TwoFAOptions} {uid uid' : String}
    (hne : uid ≠ uid') (now : Int) (code : String) (st : TwoFAState) :
    lookupMap (verify2FA opts now uid' code st).2.sessions uid = lookupMap st.sessions uid
    ∧ lookupMap (verify2FA opts now uid' code st).2.attempts uid = lookupMap st.attempts uid := by
  unfold verify2FA
  cases hl : lookupMap st.sessions uid' with
  | none => exact ⟨rfl, rfl⟩
  | some s =>
      by_cases he : now > s.expiresAt
      · simp [he]
      · by_cases hu : s.used
        · simp [he, hu]
        · by_cases ha : opts.maxAttempts ≤ (lookupMap st.attempts uid').getD 0
          · simp [he, hu, ha]
          · by_cases hc : s.code = code
            · simp [he, hu, ha, hc, lookupMap_setMap_ne _ _ hne]
            · simp [he, hu, ha, hc, lookupMap_setMap_ne _ _ hne]

theorem blocked_applyOp {opts : TwoFAOptions} {uid : String} {st : TwoFAState}
    (op : TwoFAOp) (h : Blocked opts uid st) (hop : ¬ op.startsFor uid) :
    Blocked opts uid (applyOp opts op st) := by
  cases op with
  | start now uid' r bytes ud =>
      have hne : uid ≠ uid' := fun hh => hop (by simp [TwoFAOp.startsFor, hh.symm])
      simp only [applyOp, start2FA]
      rcases h with h | h
      · exact Or.inl (by rw [lookupMap_setMap_ne _ _ hne]; exact h)
      · exact Or.inr (by
          simp only [attemptsOf] at h ⊢
          rw [lookupMap_setMap_ne _ _ hne]; exact h)
  | verify now uid' code =>
      simp only [applyOp]
      by_cases he : uid' = uid
      · subst he
        rw [verify2FA_of_blocked h now code]
        exact h
      · have hne : uid ≠ uid' := fun hh => he hh.symm
        obtain ⟨hs, ha⟩ := verify2FA_lookup_other hne now code st
        rcases h with h | h
        · exact Or.inl (hs.trans h)
        · exact Or.inr (by simpa only [attemptsOf, ha] using h)
  | reset uid' =>
      simp only [applyOp, reset2FA]
      by_cases he : uid' = uid
      · subst he
        exact Or.inl (lookupMap_deleteMap_self _ _)
      · have hne : uid ≠ uid' := fun hh => he hh.symm
        rcases h with h | h
        · exact Or.inl (by rw [lookupMap_deleteMap_ne _ hne]; exact h)
        · exact Or.inr (by
            simp only [attemptsOf] at h ⊢
            rw [lookupMap_deleteMap_ne _ hne]; exact h)
  | queryVerified uid' =>
      exact h

theorem blocked_run {opts : TwoFAOptions} {uid : String} (ops : List TwoFAOp)
    {st : TwoFAState} (h : Blocked opts uid st)
    (hops : ∀ op ∈ ops, ¬ op.startsFor uid) : Blocked opts uid (run opts ops st) := by
  induction ops generalizing st with
  | nil => exact h
  | cons op rest ih =>
      exact ih (blocked_applyOp op h (hops op (List.mem_cons_self op rest)))
        (fun o ho => hops o (List.mem_cons_of_mem op ho))

end TwoFAAuth

theorem lookupMap_setMap_some {α : Type} {m : List (String × α)} {k k' : String}
    {v w : α} (h : lookupMap (setMap m k v) k' = some w) :
    (k' = k ∧ w = v) ∨ lookupMap m k' = some w := by
  by_cases he : k' = k
  · subst he
    rw [lookupMap_setMap_self] at h
    exact Or.inl ⟨rfl, (Option.some.inj h).symm⟩
  · rw [lookupMap_setMap_ne _ _ he] at h
    exact Or.inr h

theorem lookupMap_deleteMap_some {α : Type} {m : List (String × α)} {k k' : String}
    {w : α} (h : lookupMap (deleteMap m k) k' = some w) : lookupMap m k' = some w := by
  by_cases he : k' = k
  · subst he
    rw [lookupMap_deleteMap_self] at h
    cases h
  · rwa [lookupMap_deleteMap_ne _ he] at h

/-- The 2FA store invariant: a verified challenge is always marked used. -/
def VerifiedImpliesUsed (st : TwoFAState) : Prop :=
  ∀ uid s, lookupMap st.sessions uid = some s → s.verified = true → s.used = true

theorem verifiedImpliesUsed_applyOp (opts : TwoFAOptions) (op : TwoFAOp)
    {st : TwoFAState} (h : VerifiedImpliesUsed st) :
    VerifiedImpliesUsed (TwoFAAuth.applyOp opts op st) := by
  cases op with
  | start now uid r bytes ud =>
      intro u s hs hv
      simp only [TwoFAAuth.applyOp, TwoFAAuth.start2FA] at hs
      rcases lookupMap_setMap_some hs with ⟨_, hw⟩ | hold
      · subst hw
        simp at hv
      · exact h u s hold hv
  | verify now uid code =>
      intro u s hs hv
      simp only [TwoFAAuth.applyOp] at hs
      revert hs
      unfold TwoFAAuth.verify2FA
      cases hl : lookupMap st.sessions uid with
      | none =>
          intro hs
          exact h u s hs hv
      | some sess =>
          by_cases he : now > sess.expiresAt
          · simp only [he, if_true]
            intro hs
            exact h u s hs hv
          · by_cases hu : sess.used
            · simp only [he, if_false, hu, if_true]
              intro hs
              exact h u s hs hv
            · by_cases ha : opts.maxAttempts ≤ (lookupMap st.attempts uid).getD 0
              · simp only [he, if_false, hu, ha, if_true]
                intro hs
                exact h u s hs hv
              · by_cases hc : sess.code = code
                · simp only [he, hu, ha, hc, ne_eq, if_false, not_true_eq_false,
                    if_neg, ite_false, ite_true, not_false_eq_true]
                  intro hs
                  rcases lookupMap_setMap_some hs with ⟨_, hw⟩ | hold
                  · subst hw
                    rfl
                  · exact h u s hold hv
                · simp only [he, hu, ha, hc, ne_eq, if_false, not_false_eq_true, if_pos,
                    ite_true, ite_false]
                  intro hs
                  exact h u s hs hv
  | reset uid =>
      intro u s hs hv
      simp only [TwoFAAuth.applyOp, TwoFAAuth.reset2FA] at hs
      exact h u s (lookupMap_deleteMap_some hs) hv
  | queryVerified uid =>
      exact h

/-- C2: `verify2FA` checks, in order: the challenge exists, is unexpired, is
unused, and the attempt counter is below `maxAttempts`; every failing guard
returns `false` with the state (attempt counter included) unchanged, while
passing all four guards increments the attempt counter by one and then
returns `true` exactly when the supplied code matches the stored one. -/
theorem verify2FA_guard_behaviour (opts : TwoFAOptions) (now : Int)
    (userId code : String) (st : TwoFAState) :
    (lookupMap st.sessions userId = none →
      TwoFAAuth.verify2FA opts now userId code st = (false, st))
    ∧ (∀ s, lookupMap st.sessions userId = some s → now > s.expiresAt →
        TwoFAAuth.verify2FA opts now userId code st = (false, st))
    ∧ (∀ s, lookupMap st.sessions userId = some s → ¬ now > s.expiresAt →
        s.used = true → TwoFAAuth.verify2FA opts now userId code st = (false, st))
    ∧ (∀ s, lookupMap st.sessions userId = some s → ¬ now > s.expiresAt →
        s.used = false → opts.maxAttempts ≤ TwoFAAuth.attemptsOf st userId →
        TwoFAAuth.verify2FA opts now userId code st = (false, st))
    ∧ (∀ s, lookupMap st.sessions userId = some s → ¬ now > s.expiresAt →
        s.used = false → TwoFAAuth.attemptsOf st userId < opts.maxAttempts →
        lookupMap (TwoFAAuth.verify2FA opts now userId code st).2.attempts userId =
            some (TwoFAAuth.attemptsOf st userId + 1)
          ∧ ((TwoFAAuth.verify2FA opts now userId code st).1 = true ↔ s.code = code)) := by
  refine ⟨?_, ?_, ?_, ?_, ?_⟩
  · intro h
    simp [TwoFAAuth.verify2FA, h]
  · intro s hs he
    simp [TwoFAAuth.verify2FA, hs, he]
  · intro s hs he hu
    simp [TwoFAAuth.verify2FA, hs, he, hu]
  · intro s hs he hu ha
    simp only [TwoFAAuth.attemptsOf] at ha
    simp [TwoFAAuth.verify2FA, hs, he, hu, ha]
  · intro s hs he hu ha
    have ha' : ¬ opts.maxAttempts ≤ (lookupMap st.attempts userId).getD 0 := by
      simpa [TwoFAAuth.attemptsOf, Nat.not_le] using ha
    by_cases hc : s.code = code
    · simp [TwoFAAuth.verify2FA, hs, he, hu, ha', hc, lookupMap_setMap_self,
        TwoFAAuth.attemptsOf]
    · simp [TwoFAAuth.verify2FA, hs, he, hu, ha', hc, lookupMap_setMap_self,
        TwoFAAuth.attemptsOf]

/-- Witness for C2: a live challenge with zero attempts and a matching code
ends with its counter at one and verification succeeding. -/
theorem verify2FA_guard_behaviour_w :
    lookupMap (TwoFAAuth.verify2FA ⟨300000, 6, 3⟩ 100 "42" "123456"
        ⟨[("42", ⟨"42", "123456", 0, 300000, false, false, none⟩)], []⟩).2.attempts "42" =
      some (TwoFAAuth.attemptsOf
        ⟨[("42", ⟨"42", "123456", 0, 300000, false, false, none⟩)], []⟩ "42" + 1)
    ∧ ((TwoFAAuth.verify2FA ⟨300000, 6, 3⟩ 100 "42" "123456"
        ⟨[("42", ⟨"42", "123456", 0, 300000, false, false, none⟩)], []⟩).1 = true ↔
      ("123456" : String) = "123456") := by
  have h := (verify2FA_guard_behaviour ⟨300000, 6, 3⟩ 100 "42" "123456"
    ⟨[("42", ⟨"42", "123456", 0, 300000, false, false, none⟩)], []⟩).2.2.2.2
  exact h ⟨"42", "123456", 0, 300000, false, false, none⟩ (by decide) (by decide)
    (by decide) (by decide)

/-- C3: once a subject's attempt counter has reached `maxAttempts`, every
later `verify2FA` for that subject fails (even with the stored code) across
any sequence of operations that does not call `start2FA` for the subject,
and leaves the state unchanged; `start2FA` installs a fresh unused challenge
and resets the counter to 0. -/
theorem attempts_exhausted_until_restart (opts : TwoFAOptions) (st : TwoFAState)
    (uid : String) (h : opts.maxAttempts ≤ TwoFAAuth.attemptsOf st uid) :
    (∀ ops : List TwoFAOp, (∀ op ∈ ops, ¬ op.startsFor uid) →
      ∀ now code,
        TwoFAAuth.verify2FA opts now uid code (TwoFAAuth.run opts ops st) =
          (false, TwoFAAuth.run opts ops st))
    ∧ (∀ now r bytes ud,
        lookupMap (TwoFAAuth.start2FA opts now uid r bytes ud st).2.attempts uid =
            some 0
        ∧ lookupMap (TwoFAAuth.start2FA opts now uid r bytes ud st).2.sessions uid =
            some ⟨uid, TwoFAAuth.generateCode r bytes opts.codeLength, now,
              now + opts.codeLifetime, false, false, ud⟩) := by
  constructor
  · intro ops hops now code
    exact TwoFAAuth.verify2FA_of_blocked
      (TwoFAAuth.blocked_run ops (Or.inr h) hops) now code
  · intro now r bytes ud
    constructor
    · simp [TwoFAAuth.start2FA, lookupMap_setMap_self]
    · simp [TwoFAAuth.start2FA, lookupMap_setMap_self]

/-- Witness for C3: with the counter at the cap, verification with the
correct stored code still fails after an unrelated read. -/
theorem attempts_exhausted_until_restart_w :
    TwoFAAuth.verify2FA ⟨300000, 6, 3⟩ 100 "42" "123456"
        (TwoFAAuth.run ⟨300000, 6, 3⟩ [TwoFAOp.queryVerified "7"]
          ⟨[("42", ⟨"42", "123456", 0, 300000, false, false, none⟩)], [("42", 3)]⟩) =
      (false, TwoFAAuth.run ⟨300000, 6, 3⟩ [TwoFAOp.queryVerified "7"]
          ⟨[("42", ⟨"42", "123456", 0, 300000, false, false, none⟩)], [("42", 3)]⟩) := by
  have h := attempts_exhausted_until_restart ⟨300000, 6, 3⟩
    ⟨[("42", ⟨"42", "123456", 0, 300000, false, false, none⟩)], [("42", 3)]⟩
    "42" (by decide)
  refine h.1 [TwoFAOp.queryVerified "7"] ?_ 100 "123456"
  intro op hop
  have : op = TwoFAOp.queryVerified "7" := by simpa using hop
  subst this
  simp [TwoFAOp.startsFor]

/-- C9: across every sequence of `start2FA` / `verify2FA` / `reset2FA` /
`isVerified` operations from the empty store, every stored challenge with
`verified = true` also has `used = true`. -/
theorem verified_implies_used_invariant (opts : TwoFAOptions) (ops : List TwoFAOp) :
    VerifiedImpliesUsed (TwoFAAuth.run opts ops ⟨[], []⟩) := by
  have init : VerifiedImpliesUsed ⟨[], []⟩ := by
    intro u s hs
    simp [lookupMap] at hs
  have grow : ∀ (l : List TwoFAOp) (st : TwoFAState),
      VerifiedImpliesUsed st → VerifiedImpliesUsed (TwoFAAuth.run opts l st) := by
    intro l
    induction l with
    | nil =>
        intro st h
        exact h
    | cons op rest ih =>
        intro st h
        exact ih _ (verifiedImpliesUsed_applyOp opts op h)
  exact grow ops _ init

/-- Witness for C9 at a concrete operation sequence. -/
theorem verified_implies_used_invariant_w :
    VerifiedImpliesUsed (TwoFAAuth.run ⟨300000, 6, 3⟩
      [TwoFAOp.verify 0 "42" "000000", TwoFAOp.reset "7"] ⟨[], []⟩) :=
  verified_implies_used_invariant ⟨300000, 6, 3⟩
    [TwoFAOp.verify 0 "42" "000000", TwoFAOp.reset "7"]

theorem generateCodeNum_range {L : Nat} (r : ℚ) (hL1 : 1 ≤ L)
    (hr0 : 0 ≤ r) (hr1 : r < 1) :
    (10 : Int) ^ (L - 1) ≤ TwoFAAuth.generateCodeNum r L ∧
      TwoFAAuth.generateCodeNum r L ≤ 10 ^ L - 1 := by
  unfold TwoFAAuth.generateCodeNum
  have hps : L - 1 + 1 = L := by omega
  have hpow : (10 : ℚ) ^ (L - 1) < (10 : ℚ) ^ L := by
    have hp : (0 : ℚ) < 10 ^ (L - 1) := pow_pos (by norm_num) _
    calc (10 : ℚ) ^ (L - 1) < 10 ^ (L - 1) * 10 := by nlinarith
    _ = 10 ^ (L - 1 + 1) := (pow_succ 10 (L - 1)).symm
    _ = 10 ^ L := by rw [hps]
  have hspan : (0 : ℚ) < ((10 : ℚ) ^ L - 1) - (10 : ℚ) ^ (L - 1) + 1 := by
    linarith
  constructor
  · apply Int.le_floor.mpr
    push_cast
    nlinarith
  · have hlt : TwoFAAuth.generateCodeNum r L < 10 ^ L := by
      unfold TwoFAAuth.generateCodeNum
      apply Int.floor_lt.mpr
      push_cast
      nlinarith
    unfold TwoFAAuth.generateCodeNum at hlt
    omega

/-- C8: for a requested length `1 ≤ L ≤ 8` the numeric code value lies in
`[10^(L-1), 10^L - 1]` — exactly `L` decimal digits — for every
`Math.random()` draw in `[0, 1)`; the constructor defaults `codeLength`
to 6, and `start2FA` at length 6 returns the decimal string of a value in
`[100000, 999999]`. -/
theorem numeric_code_digit_range (L : Nat) (r : ℚ) (hL1 : 1 ≤ L) (hL8 : L ≤ 8)
    (hr0 : 0 ≤ r) (hr1 : r < 1) :
    ((10 : Int) ^ (L - 1) ≤ TwoFAAuth.generateCodeNum r L
      ∧ TwoFAAuth.generateCodeNum r L ≤ 10 ^ L - 1)
    ∧ (∀ bytes, TwoFAAuth.generateCode r bytes L =
        toString (TwoFAAuth.generateCodeNum r L))
    ∧ (∀ o : TwoFAOptionsIn, o.codeLength = none →
        ∀ bs opts, mkTwoFAAuth o = Except.ok (bs, opts) → opts.codeLength = 6)
    ∧ (∀ opts : TwoFAOptions, opts.codeLength = 6 →
        ∀ now uid bytes ud st,
          (TwoFAAuth.start2FA opts now uid r bytes ud st).1 =
            toString (TwoFAAuth.generateCodeNum r 6)
          ∧ 100000 ≤ TwoFAAuth.generateCodeNum r 6
          ∧ TwoFAAuth.generateCodeNum r 6 ≤ 999999) := by
  refine ⟨generateCodeNum_range r hL1 hr0 hr1, ?_, ?_, ?_⟩
  · intro bytes
    simp [TwoFAAuth.generateCode, hL8]
  · intro o h bs opts hmk
    cases hres : resolveBotSettings o.base with
    | error e =>
        simp [mkTwoFAAuth, hres, Except.map] at hmk
    | ok bs' =>
        simp only [mkTwoFAAuth, hres, Except.map] at hmk
        obtain ⟨-, h2⟩ := Prod.mk.injEq .. ▸ Except.ok.inj hmk
        rw [← h2]
        simp [h, orDefaultNat]
  · intro opts hlen now uid bytes ud st
    have h6 := generateCodeNum_range (L := 6) r (by norm_num) hr0 hr1
    refine ⟨?_, by norm_num at h6 ⊢; exact h6.1, by norm_num at h6 ⊢; exact h6.2⟩
    simp [TwoFAAuth.start2FA, TwoFAAuth.generateCode, hlen]

/-- Witness for C8 at `L = 6`, `r = 1/2`. -/
theorem numeric_code_digit_range_w :
    (10 : Int) ^ (6 - 1) ≤ TwoFAAuth.generateCodeNum (1/2) 6
      ∧ TwoFAAuth.generateCodeNum (1/2) 6 ≤ 10 ^ 6 - 1 :=
  (numeric_code_digit_range 6 (1/2) (by norm_num) (by norm_num) (by norm_num)
    (by norm_num)).1

/-! SessionManager (`src/Auth/SessionManager.ts`): durable sessions with
sliding-window expiry.  The asynchronous persistence adapter is modelled as
a `persisted` snapshot field that `saveSessions` overwrites with the current
in-memory map. -/

/-- `Session` record. -/
structure Session where
  id : String
  userData : AuthResult
  createdAt : Int
  lastActivity : Int
  metadata : Option (List (String × String))
  deriving DecidableEq, Repr

/-- State of a `SessionManager`: the in-memory map and the last persisted
snapshot. -/
structure SessionManagerState where
  sessions : List (String × Session)
  persisted : List (String × Session)
  deriving DecidableEq, Repr

namespace SessionManager

/-- `saveSessions`: push the in-memory map to the persistent store. -/
def saveSessions (st : SessionManagerState) : SessionManagerState :=
  ⟨st.sessions, st.sessions⟩

/-- `createSession` with the id produced by the token generator. -/
def createSession (now : Int) (sessionId : String) (userData : AuthResult)
    (metadata : Option (List (String × String))) (st : SessionManagerState) :
    Session × SessionManagerState :=
  let session : Session := ⟨sessionId, userData, now, now, metadata⟩
  (session, saveSessions ⟨setMap st.sessions sessionId session, st.persisted⟩)

/-- `getSession`: a missing id yields `undefined`; an entry whose
`lastActivity` lies further than `sessionLifetime` in the past is deleted
and persisted and yields `undefined`; otherwise `lastActivity` is refreshed
in memory (no `saveSessions` call on this path) and the session returned. -/
def getSession (sessionLifetime : Int) (now : Int) (sessionId : String)
    (st : SessionManagerState) : Option Session × SessionManagerState :=
  match lookupMap st.sessions sessionId with
  | none => (none, st)
  | some session =>
      if now - session.lastActivity > sessionLifetime then
        (none, saveSessions ⟨deleteMap st.sessions sessionId, st.persisted⟩)
      else
        let s := { session with lastActivity := now }
        (some s, ⟨setMap st.sessions sessionId s, st.persisted⟩)

end SessionManager

/-- Counterexample to C5: on the refresh path `getSession` does not persist.
Starting from a persisted snapshot equal to memory, a successful non-expired
read leaves the persisted snapshot holding the stale `lastActivity`, so the
persisted copy differs from the updated in-memory snapshot. -/
theorem getSession_refresh_not_persisted_cex :
    (SessionManager.getSession 10 5 "s"
        ⟨[("s", ⟨"s", ⟨1, "A"⟩, 0, 0, none⟩)], [("s", ⟨"s", ⟨1, "A"⟩, 0, 0, none⟩)]⟩).2.persisted ≠
      (SessionManager.getSession 10 5 "s"
        ⟨[("s", ⟨"s", ⟨1, "A"⟩, 0, 0, none⟩)], [("s", ⟨"s", ⟨1, "A"⟩, 0, 0, none⟩)]⟩).2.sessions := by
  decide

/-- C5 amended: `getSession` returns absent on a missing id; deletes,
persists and returns absent on an expired session; and on a live session
refreshes `lastActivity` to `now` in memory only — the persisted snapshot is
left unchanged on that path — and returns the refreshed session. -/
theorem getSession_behaviour (lifetime now : Int) (sessionId : String)
    (st : SessionManagerState) :
    (lookupMap st.sessions sessionId = none →
      SessionManager.getSession lifetime now sessionId st = (none, st))
    ∧ (∀ s, lookupMap st.sessions sessionId = some s →
        now - s.lastActivity > lifetime →
        SessionManager.getSession lifetime now sessionId st =
          (none, ⟨deleteMap st.sessions sessionId, deleteMap st.sessions sessionId⟩))
    ∧ (∀ s, lookupMap st.sessions sessionId = some s →
        ¬ now - s.lastActivity > lifetime →
        SessionManager.getSession lifetime now sessionId st =
          (some { s with lastActivity := now },
            ⟨setMap st.sessions sessionId { s with lastActivity := now },
              st.persisted⟩)) := by
  refine ⟨?_, ?_, ?_⟩
  · intro h
    simp [SessionManager.getSession, h]
  · intro s hs he
    simp [SessionManager.getSession, SessionManager.saveSessions, hs, he]
  · intro s hs he
    simp [SessionManager.getSession, hs, he]

/-- Witness for C5 (amended) on the refresh path at concrete inputs. -/
theorem getSession_behaviour_w :
    SessionManager.getSession 10 5 "s"
        ⟨[("s", ⟨"s", ⟨1, "A"⟩, 0, 0, none⟩)], [("s", ⟨"s", ⟨1, "A"⟩, 0, 0, none⟩)]⟩ =
      (some ⟨"s", ⟨1, "A"⟩, 0, 5, none⟩,
        ⟨[("s", ⟨"s", ⟨1, "A"⟩, 0, 5, none⟩)], [("s", ⟨"s", ⟨1, "A"⟩, 0, 0, none⟩)]⟩) := by
  have h := (getSession_behaviour 10 5 "s"
    ⟨[("s", ⟨"s", ⟨1, "A"⟩, 0, 0, none⟩)], [("s", ⟨"s", ⟨1, "A"⟩, 0, 0, none⟩)]⟩).2.2
    ⟨"s", ⟨1, "A"⟩, 0, 0, none⟩ (by decide) (by decide)
  simpa [setMap] using h

/-! WidgetAuth (second class in `src/Src/Auth/DeeplinkAuth.ts`): Telegram
Login Widget payload validation.  A payload is a string-keyed, string-valued
JS object (at most one entry per key); SHA-256 and HMAC-SHA-256 are abstract
function parameters. -/

/-- A widget payload as key/value pairs. -/
abbrev Payload := List (String × String)

namespace WidgetAuth

/-- `data[key]`. -/
def getField (data : Payload) (key : String) : Option String :=
  lookupMap data key

/-- JS truthiness of a possibly missing string field: present and
non-empty. -/
def truthyField (data : Payload) (key : String) : Bool :=
  match getField data key with
  | none => false
  | some v => v != ""

/-- Lexicographic comparison of char lists: how JS compares strings in the
default `sort()` comparator. -/
def ltCharList : List Char → List Char → Bool
  | _, [] => false
  | [], _ :: _ => true
  | c :: cs, d :: ds =>
      if c < d then true else if d < c then false else ltCharList cs ds

/-- JS `a < b` on two key strings. -/
def keyLt (a b : String) : Bool :=
  ltCharList a.data b.data

/-- Key `a` sorts no later than key `b` (`b` is not lexicographically
smaller). -/
def KeyLe (a b : String) : Prop :=
  ltCharList b.data a.data = false

/-- Insert a key into an already sorted key list, before the first larger
key. -/
def insertKey (k : String) : List String → List String
  | [] => [k]
  | x :: xs => if keyLt k x then k :: x :: xs else x :: insertKey k xs

/-- Ascending insertion sort of a key list, modelling `Array.sort()`. -/
def sortKeys : List String → List String
  | [] => []
  | k :: rest => insertKey k (sortKeys rest)

/-- `Object.keys(data).sort()` after `delete data.hash`. -/
def sortedKeys (data : Payload) : List String :=
  sortKeys ((data.filter (fun kv => kv.1 != "hash")).map Prod.fst)

/-- The `dataCheckArr` lines: `key=value` for every truthy field in sorted
key order (the `if (data[key])` test skips falsy values). -/
def dataCheckArr (data : Payload) : List String :=
  (sortedKeys data).filterMap (fun k =>
    match getField data k with
    | none => none
    | some v => if v = "" then none else some (k ++ "=" ++ v))

/-- The canonical check string joined with newlines. -/
def dataCheckString (data : Payload) : String :=
  String.intercalate "\n" (dataCheckArr data)

/-- The canonical check string as the spec's words describe it: EVERY field
except `hash` contributes a `key=value` line, in sorted key order, with no
truthiness filter.  Used only to compare the spec's description against the
source's `dataCheckString`. -/
def dataCheckStringSpec (data : Payload) : String :=
  String.intercalate "\n"
    ((sortedKeys data).map (fun k => k ++ "=" ++ ((getField data k).getD "")))

/-- `validateSignature`: derive the secret key as `sha256(botToken)`,
compute `hmacSha256Hex` of the canonical string under that key, and compare
with the supplied `hash` field. -/
def validateSignature (sha256 : String → List Nat)
    (hmacSha256Hex : List Nat → String → String) (botToken : String)
    (data : Payload) : Bool :=
  let hmac := hmacSha256Hex (sha256 botToken) (dataCheckString data)
  match getField data "hash" with
  | none => false
  | some h => hmac == h

/-- JS `parseInt` on a string field: skip leading spaces, optional sign,
then the decimal-digit prefix; no digits means `NaN`, modelled as `none`. -/
def parseIntJS (s : String) : Option Int :=
  let cs := s.toList.dropWhile (fun c => c = ' ')
  let signedRest : Int × List Char :=
    match cs with
    | '-' :: t => (-1, t)
    | '+' :: t => (1, t)
    | _ => (1, cs)
  let digits := signedRest.2.takeWhile Char.isDigit
  if digits.isEmpty then none
  else
    some (signedRest.1 *
      ((digits.foldl (fun acc c => acc * 10 + (c.toNat - 48)) 0 : Nat) : Int))

/-- `WidgetAuth.handleAuth`: require the four mandatory fields to be truthy,
reject a payload whose parsed `auth_date` lies more than 86400 seconds
before `now` (a non-numeric `auth_date` passes, as every NaN comparison is
false in JS), then check the signature only when `validateSig` is enabled.
The payload argument is always an object here, so the initial
`typeof data !== 'object'` guard cannot fire. -/
def handleAuth (validateSig : Bool) (sha256 : String → List Nat)
    (hmacSha256Hex : List Nat → String → String) (botToken : String)
    (now : Int) (data : Payload) : Bool :=
  if ["id", "first_name", "auth_date", "hash"].all (fun f => truthyField data f) then
    let expired : Bool :=
      match parseIntJS ((getField data "auth_date").getD "") with
      | none => false
      | some authDate => decide (now - authDate > 86400)
    if expired then false
    else if validateSig then validateSignature sha256 hmacSha256Hex botToken data
    else true
  else false

end WidgetAuth

/-- Runtime options reaching the `WidgetAuth` constructor (the TS type
declares `botToken` required, but the constructor performs no runtime
check, so an absent token is representable at runtime). -/
structure WidgetAuthOptionsIn where
  botSettings : Option TelegramBotSettings
  botToken : Option String
  botUsername : Option String
  validateSignature : Option Bool
  deriving DecidableEq, Repr

/-- Resolved `WidgetAuth` options after the constructor's spread. -/
structure WidgetAuthResolved where
  botSettings : Option TelegramBotSettings
  botToken : Option String
  botUsername : Option String
  validateSignature : Bool
  deriving DecidableEq, Repr

/-- `WidgetAuth`'s constructor: spread the options, defaulting
`validateSignature` to `true` when the field is `undefined`; it performs no
credential check and never throws. -/
def mkWidgetAuth (o : WidgetAuthOptionsIn) : Except String WidgetAuthResolved :=
  Except.ok ⟨o.botSettings, o.botToken, o.botUsername,
    match o.validateSignature with
    | some b => b
    | none => true⟩

namespace WidgetAuth

theorem ltCharList_asymm : ∀ (as bs : List Char),
    ltCharList as bs = true → ltCharList bs as = false := by
  intro as
  induction as with
  | nil =>
      intro bs h
      cases bs with
      | nil => simp [ltCharList] at h
      | cons d ds => simp [ltCharList]
  | cons c cs ih =>
      intro bs h
      cases bs with
      | nil => simp [ltCharList] at h
      | cons d ds =>
          simp only [ltCharList] at h ⊢
          by_cases h1 : c < d
          · have h2 : ¬ d < c := lt_asymm h1
            simp [h1, h2]
          · by_cases h2 : d < c
            · simp [h1, h2] at h
            · simp only [h1, h2, if_false] at h ⊢
              exact ih ds h

theorem ltCharList_trans : ∀ (as bs cs : List Char), ltCharList as bs = true →
    ltCharList bs cs = true → ltCharList as cs = true := by
  intro as
  induction as with
  | nil =>
      intro bs cs h1 h2
      cases cs with
      | nil => cases bs <;> simp [ltCharList] at h2
      | cons e es => simp [ltCharList]
  | cons c csa ih =>
      intro bs cs h1 h2
      cases bs with
      | nil => simp [ltCharList] at h1
      | cons d ds =>
          cases cs with
          | nil => simp [ltCharList] at h2
          | cons e es =>
              simp only [ltCharList] at h1 h2 ⊢
              by_cases hcd : c < d
              · by_cases hde : d < e
                · simp [lt_trans hcd hde]
                · by_cases hed : e < d
                  · simp [hde, hed] at h2
                  · simp [lt_of_lt_of_le hcd (le_of_not_lt hed)]
              · by_cases hdc : d < c
                · simp [hcd, hdc] at h1
                · by_cases hde : d < e
                  · simp [lt_of_le_of_lt (le_of_not_lt hdc) hde]
                  · by_cases hed : e < d
                    · simp [hde, hed] at h2
                    · have h1' : ltCharList csa ds = true := by
                        simpa [hcd, hdc] using h1
                      have h2' : ltCharList ds es = true := by
                        simpa [hde, hed] using h2
                      have hce : c ≤ e :=
                        le_trans (le_of_not_lt hdc) (le_of_not_lt hed)
                      by_cases hc : c < e
                      · simp [hc]
                      · simp [hc, not_lt.mpr hce, ih ds es h1' h2']

theorem perm_insertKey (k : String) (l : List String) :
    List.Perm (insertKey k l) (k :: l) := by
  induction l with
  | nil => exact List.Perm.refl _
  | cons x xs ih =>
      by_cases h : keyLt k x = true
      · simp [insertKey, h]
      · rw [Bool.not_eq_true] at h
        rw [show insertKey k (x :: xs) = x :: insertKey k xs by
          simp [insertKey, h]]
        exact (ih.cons x).trans (List.Perm.swap k x xs)

theorem perm_sortKeys (l : List String) : List.Perm (sortKeys l) l := by
  induction l with
  | nil => exact List.Perm.refl _
  | cons k rest ih =>
      exact (perm_insertKey k (sortKeys rest)).trans (ih.cons k)

theorem sorted_insertKey {k : String} {l : List String}
    (h : List.Sorted KeyLe l) : List.Sorted KeyLe (insertKey k l) := by
  induction l with
  | nil => simp [insertKey, List.sorted_singleton]
  | cons x xs ih =>
      rw [List.sorted_cons] at h
      obtain ⟨hx, hxs⟩ := h
      by_cases hk : keyLt k x = true
      · rw [show insertKey k (x :: xs) = k :: x :: xs by simp [insertKey, hk]]
        rw [List.sorted_cons]
        constructor
        · intro y hy
          rcases List.mem_cons.mp hy with rfl | hy'
          · exact ltCharList_asymm _ _ hk
          · have hxy := hx y hy'
            show ltCharList y.data k.data = false
            cases hyk : ltCharList y.data k.data with
            | false => rfl
            | true =>
                have : ltCharList y.data x.data = true :=
                  ltCharList_trans _ _ _ hyk hk
                rw [KeyLe, this] at hxy
                cases hxy
        · rw [List.sorted_cons]
          exact ⟨hx, hxs⟩
      · rw [Bool.not_eq_true] at hk
        rw [show insertKey k (x :: xs) = x :: insertKey k xs by
          simp [insertKey, hk]]
        rw [List.sorted_cons]
        refine ⟨?_, ih hxs⟩
        intro y hy
        have hmem : y ∈ k :: xs := (perm_insertKey k xs).mem_iff.mp hy
        rcases List.mem_cons.mp hmem with rfl | hy'
        · exact hk
        · exact hx y hy'

theorem sorted_sortKeys (l : List String) : List.Sorted KeyLe (sortKeys l) := by
  induction l with
  | nil => simp [sortKeys]
  | cons k rest ih => exact sorted_insertKey ih

end WidgetAuth

theorem lookupMap_eq_of_mem_nodup {α : Type} {data : List (String × α)}
    {k : String} {v : α} (hnd : (data.map Prod.fst).Nodup)
    (hmem : (k, v) ∈ data) : lookupMap data k = some v := by
  induction data with
  | nil => cases hmem
  | cons kv rest ih =>
      obtain ⟨k0, v0⟩ := kv
      simp only [List.map_cons, List.nodup_cons] at hnd
      rcases List.mem_cons.mp hmem with heq | hm
      · cases heq
        simp [lookupMap]
      · by_cases he : k0 = k
        · subst he
          exact absurd (List.mem_map_of_mem Prod.fst hm) hnd.1
        · simp only [lookupMap, he, if_false]
          exact ih hnd.2 hm

theorem mem_of_lookupMap_eq {α : Type} {data : List (String × α)} {k : String}
    {v : α} (h : lookupMap data k = some v) : (k, v) ∈ data := by
  induction data with
  | nil => cases h
  | cons kv rest ih =>
      obtain ⟨k0, v0⟩ := kv
      by_cases he : k0 = k
      · subst he
        simp only [lookupMap, if_pos rfl] at h
        cases h
        exact List.mem_cons_self _ _
      · simp only [lookupMap, he, if_false] at h
        exact List.mem_cons_of_mem _ (ih h)

/-- Counterexample to C4: a payload field with a JS-falsy (empty) value is
skipped by the `if (data[key])` test inside `validateSignature`, so not
every non-`hash` field participates in the canonical check string: the
source's string differs from the spec's all-fields construction. -/
theorem dataCheckString_skips_falsy_cex :
    WidgetAuth.dataCheckString
        [("auth_date", "1"), ("first_name", "B"), ("hash", "h"), ("id", "7"),
          ("last_name", "")] ≠
      WidgetAuth.dataCheckStringSpec
        [("auth_date", "1"), ("first_name", "B"), ("hash", "h"), ("id", "7"),
          ("last_name", "")] := by
  decide

/-- C4 amended: the canonical check string is built from the payload minus
`hash`, keys sorted lexicographically, as `key=value` lines — but only
fields whose value is truthy (non-empty) participate; the secret key is the
one-way hash of the bot token, the keyed HMAC is computed over the canonical
string with that key, and the payload passes exactly when the digest equals
the supplied `hash`. -/
theorem validateSignature_canonicalization
    (sha256 : String → List Nat) (hmacSha256Hex : List Nat → String → String)
    (botToken : String) (data : Payload) (k v : String)
    (hnd : (data.map Prod.fst).Nodup) :
    (WidgetAuth.validateSignature sha256 hmacSha256Hex botToken data = true ↔
      WidgetAuth.getField data "hash" =
        some (hmacSha256Hex (sha256 botToken) (WidgetAuth.dataCheckString data)))
    ∧ ((k, v) ∈ data → k ≠ "hash" → v ≠ "" →
        (k ++ "=" ++ v) ∈ WidgetAuth.dataCheckArr data)
    ∧ (∀ line ∈ WidgetAuth.dataCheckArr data,
        ∃ k' v', (k', v') ∈ data ∧ k' ≠ "hash" ∧ v' ≠ "" ∧ line = k' ++ "=" ++ v')
    ∧ List.Sorted WidgetAuth.KeyLe (WidgetAuth.sortedKeys data) := by
  refine ⟨?_, ?_, ?_, WidgetAuth.sorted_sortKeys _⟩
  · unfold WidgetAuth.validateSignature
    cases hg : WidgetAuth.getField data "hash" with
    | none => simp
    | some h =>
        simp only [beq_iff_eq, Option.some.injEq]
        exact eq_comm
  · intro hmem hk hv
    have hkey : k ∈ WidgetAuth.sortedKeys data := by
      have hin : k ∈ (data.filter (fun kv => kv.1 != "hash")).map Prod.fst := by
        refine List.mem_map.mpr ⟨(k, v), ?_, rfl⟩
        refine List.mem_filter.mpr ⟨hmem, ?_⟩
        simpa using hk
      exact (WidgetAuth.perm_sortKeys _).mem_iff.mpr hin
    refine List.mem_filterMap.mpr ⟨k, hkey, ?_⟩
    rw [show WidgetAuth.getField data k = some v from
      lookupMap_eq_of_mem_nodup hnd hmem]
    simp [hv]
  · intro line hline
    obtain ⟨k', hk', hfk⟩ := List.mem_filterMap.mp hline
    cases hg : WidgetAuth.getField data k' with
    | none =>
        rw [hg] at hfk
        cases hfk
    | some v' =>
        rw [hg] at hfk
        by_cases hv : v' = ""
        · simp [hv] at hfk
        · simp only [hv, if_false, Option.some.injEq] at hfk
          refine ⟨k', v', mem_of_lookupMap_eq hg, ?_, hv, hfk.symm⟩
          have hin : k' ∈ (data.filter (fun kv => kv.1 != "hash")).map Prod.fst :=
            (WidgetAuth.perm_sortKeys _).mem_iff.mp hk'
          obtain ⟨⟨k0, v0⟩, hmem0, hfst⟩ := List.mem_map.mp hin
          cases hfst
          have := (List.mem_filter.mp hmem0).2
          simpa using this

/-- Witness for C4 (amended): a truthy non-hash field of a concrete payload
contributes its `key=value` line. -/
theorem validateSignature_canonicalization_w :
    ("id" ++ "=" ++ "7") ∈ WidgetAuth.dataCheckArr [("id", "7"), ("hash", "h")] :=
  (validateSignature_canonicalization (fun _ => []) (fun _ s => s) "t"
      [("id", "7"), ("hash", "h")] "id" "7" (by decide)).2.1
    (by decide) (by decide) (by decide)

/-- C6: a widget payload whose parsed `auth_date` lies more than 86400
seconds before the current time is rejected by `handleAuth`, whatever the
supplied hash and whether or not signature validation is enabled. -/
theorem widget_freshness_rejection (validateSig : Bool)
    (sha256 : String → List Nat) (hmacSha256Hex : List Nat → String → String)
    (botToken : String) (now : Int) (data : Payload) (s : String) (a : Int)
    (hs : WidgetAuth.getField data "auth_date" = some s)
    (hp : WidgetAuth.parseIntJS s = some a) (hold : now - a > 86400) :
    WidgetAuth.handleAuth validateSig sha256 hmacSha256Hex botToken now data =
      false := by
  unfold WidgetAuth.handleAuth
  by_cases hreq :
      (["id", "first_name", "auth_date", "hash"].all
        (fun f => WidgetAuth.truthyField data f)) = true
  · simp [hreq, hs, hp, hold]
  · simp [hreq]

/-- Witness for C6: the hash the abstract HMAC would produce matches, yet
the stale payload is still rejected. -/
theorem widget_freshness_rejection_w :
    WidgetAuth.handleAuth true (fun _ => []) (fun _ _ => "h") "tok" 100000
      [("auth_date", "1"), ("first_name", "A"), ("hash", "h"), ("id", "5")] =
      false :=
  widget_freshness_rejection true (fun _ => []) (fun _ _ => "h") "tok" 100000
    [("auth_date", "1"), ("first_name", "A"), ("hash", "h"), ("id", "5")]
    "1" 1 (by decide) (by decide) (by decide)

/-- C10: with signature validation disabled, `handleAuth` accepts every
payload whose four required fields are truthy and whose parsed `auth_date`
is within the 24-hour window, regardless of the supplied hash; the
constructor defaults `validateSignature` to `true` when the option is
absent. -/
theorem widget_skip_signature (sha256 : String → List Nat)
    (hmacSha256Hex : List Nat → String → String) (botToken : String)
    (now : Int) (data : Payload) (s : String) (a : Int)
    (hreq : (["id", "first_name", "auth_date", "hash"].all
      (fun f => WidgetAuth.truthyField data f)) = true)
    (hs : WidgetAuth.getField data "auth_date" = some s)
    (hp : WidgetAuth.parseIntJS s = some a)
    (hfresh : ¬ now - a > 86400) :
    WidgetAuth.handleAuth false sha256 hmacSha256Hex botToken now data = true
    ∧ (∀ o : WidgetAuthOptionsIn, o.validateSignature = none →
        ∀ res, mkWidgetAuth o = Except.ok res → res.validateSignature = true) := by
  constructor
  · unfold WidgetAuth.handleAuth
    simp [hreq, hs, hp, hfresh]
  · intro o h res hres
    simp only [mkWidgetAuth, h, Except.ok.injEq] at hres
    rw [← hres]

/-- Witness for C10: a fresh payload with an arbitrary hash value passes
when `validateSignature` is `false`. -/
theorem widget_skip_signature_w :
    WidgetAuth.handleAuth false (fun _ => []) (fun _ _ => "zzz") "tok" 86401
      [("auth_date", "1"), ("first_name", "A"), ("hash", "nonsense"), ("id", "5")] =
      true :=
  (widget_skip_signature (fun _ => []) (fun _ _ => "zzz") "tok" 86401
    [("auth_date", "1"), ("first_name", "A"), ("hash", "nonsense"), ("id", "5")]
    "1" 1 (by decide) (by decide) (by decide) (by decide)).1

/-- Counterexample to C7: the `WidgetAuth` constructor performs no
credential check — with neither `botSettings` nor a bot token it still
constructs successfully instead of throwing. -/
theorem widget_constructor_never_throws_cex :
    mkWidgetAuth ⟨none, none, none, none⟩ =
      Except.ok ⟨none, none, none, true⟩ := rfl

/-- C7 amended: `DeeplinkAuth`, `CodeAuth` and `TwoFAAuth` throw at
construction when the options carry neither `botSettings` nor a bot token;
`WidgetAuth`'s constructor checks no credentials and always succeeds, so for
it a missing token surfaces only on later use. -/
theorem constructor_credential_check (o : AuthTransportOptions)
    (t : TwoFAOptionsIn) (w : WidgetAuthOptionsIn)
    (ho1 : o.botSettings = none) (ho2 : o.botToken = none)
    (ht1 : t.base.botSettings = none) (ht2 : t.base.botToken = none) :
    mkDeeplinkAuth o =
        Except.error "Необходимо указать botSettings или botToken"
    ∧ mkCodeAuth o =
        Except.error "Необходимо указать botSettings или botToken"
    ∧ mkTwoFAAuth t =
        Except.error "Необходимо указать botSettings или botToken"
    ∧ mkWidgetAuth w =
        Except.ok ⟨w.botSettings, w.botToken, w.botUsername,
          match w.validateSignature with
          | some b => b
          | none => true⟩ := by
  refine ⟨?_, ?_, ?_, rfl⟩
  · simp [mkDeeplinkAuth, resolveBotSettings, ho1, ho2, Except.map]
  · simp [mkCodeAuth, resolveBotSettings, ho1, ho2, Except.map]
  · simp [mkTwoFAAuth, resolveBotSettings, ht1, ht2, Except.map]

/-- Witness for C7 (amended) at the fully absent options. -/
theorem constructor_credential_check_w :
    mkDeeplinkAuth ⟨none, none, none⟩ =
        Except.error "Необходимо указать botSettings или botToken"
    ∧ mkTwoFAAuth ⟨⟨none, none, none⟩, none, none, none⟩ =
        Except.error "Необходимо указать botSettings или botToken" := by
  have h := constructor_credential_check ⟨none, none, none⟩
    ⟨⟨none, none, none⟩, none, none, none⟩ ⟨none, none, none, none⟩
    rfl rfl rfl rfl
  exact ⟨h.1, h.2.2.1⟩

end TGAuth
